import Mathlib

/-
Shallow embedding of the configuration lifecycle engine of src/config.rs:
the Settings data model, the Normalizer (lowercase_settings), the
CommandDefaulter (default_chat_commands), the SettingsStore (Settings::load)
and the InteractiveWizard (Settings::ask_for_settings), together with proofs
of the spec's invariants and algebraic properties.

Modelling conventions:
- Rust chars are Unicode scalar values, modelled as Nat; Rust String is
  List Nat.  String::to_lowercase is modelled on the ASCII range (the only
  range exercised by the program's own literals).
- HashMap is modelled as a function to Option (unordered, unique keys),
  insertion as pointwise function update.
- The filesystem is a map from paths to file contents.  File contents are
  modelled up to parsing: Doc.valid s stands for the canonical pretty
  serialization of s (serde_json::to_string_pretty) and for any text that
  parses to s; Doc.invalid raw stands for text that fails to parse as the
  Settings schema.  serde_json is an external collaborator crate, so parse
  and serialize are abstracted this way rather than re-implemented.
- A Rust panic (the wizard's .expect on a missing key marker) is modelled
  as the Option value none: the operation aborts without producing a
  Settings record and without touching the filesystem.
-/

namespace Belabot

/-- A Rust string: its list of Unicode scalar values. -/
abbrev RStr := List Nat

/-- Embed a Lean string literal as an RStr. -/
def str (s : String) : RStr := s.toList.map Char.toNat

/-- ASCII lowercasing of one scalar value, the fragment of Rust
char lowercasing exercised by this program. -/
def lowerChar (c : Nat) : Nat := if 65 ≤ c ∧ c ≤ 90 then c + 32 else c

/-- Model of Rust String::to_lowercase. -/
def toLowercase (s : RStr) : RStr := s.map lowerChar

/-- A string already in lowercase form. -/
def IsLowerStr (s : RStr) : Prop := toLowercase s = s

instance (s : RStr) : Decidable (IsLowerStr s) :=
  inferInstanceAs (Decidable (toLowercase s = s))

/-- Model of HashMap from String to String. -/
abbrev SMap := RStr → Option RStr

/-- Monitor flags (struct Monitor). -/
structure Monitor where
  modems : Bool
  notifications : Bool
deriving DecidableEq

/-- Monitor::default: both flags true. -/
def monitorDefault : Monitor := ⟨true, true⟩

/-- struct Belabox. -/
structure Belabox where
  remote_key : RStr
  custom_interface_name : SMap
  monitor : Monitor

/-- struct Twitch. -/
structure Twitch where
  bot_username : RStr
  bot_oauth : RStr
  channel : RStr
  admins : List RStr

/-- enum BotCommand: the closed set of 8 chat command kinds. -/
inductive BotCommand where
  | Bitrate
  | Network
  | Poweroff
  | Restart
  | Sensor
  | Start
  | Stats
  | Stop
deriving DecidableEq, Fintype

/-- enum Permission. -/
inductive Permission where
  | Broadcaster
  | Moderator
  | Vip
  | Public
deriving DecidableEq

/-- struct CommandInformation: a chat trigger and its permission gate. -/
structure CommandInformation where
  command : RStr
  permission : Permission
deriving DecidableEq

/-- HashMap from BotCommand to CommandInformation, as a function
(unique keys, unordered). -/
abbrev CommandMap := BotCommand → Option CommandInformation

/-- The empty command map (HashMap::new). -/
def emptyCommands : CommandMap := fun _ => none

/-- struct Settings: the root configuration record. -/
structure Settings where
  belabox : Belabox
  twitch : Twitch
  commands : CommandMap

/-- HashMap::entry(k).or_insert(v): insert v at k only when k is absent. -/
def orInsert (m : CommandMap) (k : BotCommand) (v : CommandInformation) :
    CommandMap :=
  fun q => if q = k then some ((m k).getD v) else m q

/-- The body of the values_mut loop of lowercase_settings: lowercase the
command trigger of one CommandInformation. -/
def lowInfo (info : CommandInformation) : CommandInformation :=
  { command := toLowercase info.command, permission := info.permission }

/-- fn lowercase_settings: lowercases the twitch channel, oauth, username,
every admins entry, and the command trigger of every commands entry. -/
def lowercase_settings (s : Settings) : Settings where
  belabox := s.belabox
  twitch :=
    { bot_username := toLowercase s.twitch.bot_username
      bot_oauth := toLowercase s.twitch.bot_oauth
      channel := toLowercase s.twitch.channel
      admins := s.twitch.admins.map toLowercase }
  commands := fun k => (s.commands k).map lowInfo

/-- fn default_chat_commands: the chain of entry().or_insert() calls, in
source order. -/
def default_chat_commands (m : CommandMap) : CommandMap :=
  let m := orInsert m .Start ⟨str "!bbstart", .Broadcaster⟩
  let m := orInsert m .Stop ⟨str "!bbstop", .Broadcaster⟩
  let m := orInsert m .Stats ⟨str "!bbs", .Public⟩
  let m := orInsert m .Restart ⟨str "!bbrs", .Broadcaster⟩
  let m := orInsert m .Poweroff ⟨str "!bbpo", .Broadcaster⟩
  let m := orInsert m .Bitrate ⟨str "!bbb", .Broadcaster⟩
  let m := orInsert m .Sensor ⟨str "!bbsensor", .Public⟩
  let m := orInsert m .Network ⟨str "!bbt", .Broadcaster⟩
  m

/-- The default catalogue of default_chat_commands, one row per command
kind, for stating its characterization. -/
def defaultCommand : BotCommand → CommandInformation
  | .Start => ⟨str "!bbstart", .Broadcaster⟩
  | .Stop => ⟨str "!bbstop", .Broadcaster⟩
  | .Stats => ⟨str "!bbs", .Public⟩
  | .Restart => ⟨str "!bbrs", .Broadcaster⟩
  | .Poweroff => ⟨str "!bbpo", .Broadcaster⟩
  | .Bitrate => ⟨str "!bbb", .Broadcaster⟩
  | .Sensor => ⟨str "!bbsensor", .Public⟩
  | .Network => ⟨str "!bbt", .Broadcaster⟩

/-- CommandDefaulter lifted to a whole Settings record. -/
def default_settings_commands (s : Settings) : Settings :=
  { s with commands := default_chat_commands s.commands }

theorem default_chat_commands_eq (m : CommandMap) (k : BotCommand) :
    default_chat_commands m k = some ((m k).getD (defaultCommand k)) := by
  cases k <;> rfl

theorem lowerChar_idem (c : Nat) : lowerChar (lowerChar c) = lowerChar c := by
  unfold lowerChar
  by_cases h : 65 ≤ c ∧ c ≤ 90
  · simp only [if_pos h]
    exact if_neg (by omega)
  · simp only [if_neg h]

theorem toLowercase_idem (s : RStr) :
    toLowercase (toLowercase s) = toLowercase s := by
  unfold toLowercase
  rw [List.map_map]
  congr 1
  funext c
  exact lowerChar_idem c

theorem toLowercase_isLower (s : RStr) : IsLowerStr (toLowercase s) :=
  toLowercase_idem s

theorem defaultCommand_lower (k : BotCommand) :
    IsLowerStr (defaultCommand k).command := by
  cases k <;> decide

theorem lowInfo_defaultCommand (k : BotCommand) :
    lowInfo (defaultCommand k) = defaultCommand k := by
  cases k <;> decide

theorem lowInfo_idem (info : CommandInformation) :
    lowInfo (lowInfo info) = lowInfo info := by
  unfold lowInfo
  rw [CommandInformation.mk.injEq]
  exact ⟨toLowercase_idem _, rfl⟩

theorem lowercase_settings_idem_aux (s : Settings) :
    lowercase_settings (lowercase_settings s) = lowercase_settings s := by
  unfold lowercase_settings
  rw [Settings.mk.injEq]
  refine ⟨rfl, ?_, ?_⟩
  · rw [Twitch.mk.injEq]
    refine ⟨toLowercase_idem _, toLowercase_idem _, toLowercase_idem _, ?_⟩
    show (s.twitch.admins.map toLowercase).map toLowercase
        = s.twitch.admins.map toLowercase
    rw [List.map_map]
    congr 1
    funext a
    exact toLowercase_idem a
  · funext k
    show ((s.commands k).map lowInfo).map lowInfo = (s.commands k).map lowInfo
    cases h : s.commands k <;> simp [h, lowInfo_idem]

theorem default_chat_commands_idem_aux (m : CommandMap) :
    default_chat_commands (default_chat_commands m) = default_chat_commands m := by
  funext k
  rw [default_chat_commands_eq, default_chat_commands_eq]
  simp

/-- CommandDefaulter applied to a pointwise-lowercased map: since every
default trigger is already lowercase, defaulting and lowercasing commute
entry by entry. -/
theorem default_lowercase_commands_comm (m : CommandMap) (k : BotCommand) :
    default_chat_commands (fun q => (m q).map lowInfo) k
      = (default_chat_commands m k).map lowInfo := by
  rw [default_chat_commands_eq, default_chat_commands_eq]
  cases h : m k
  · simp [h, lowInfo_defaultCommand]
  · simp [h]

/-- Normalizer and CommandDefaulter commute on whole Settings records. -/
theorem lowercase_default_comm_aux (s : Settings) :
    default_settings_commands (lowercase_settings s) =
      lowercase_settings (default_settings_commands s) := by
  unfold default_settings_commands lowercase_settings
  rw [Settings.mk.injEq]
  refine ⟨rfl, rfl, ?_⟩
  funext k
  exact default_lowercase_commands_comm s.commands k

/-- File contents, identified up to parsing: Doc.valid s is the canonical
pretty serialization of s (and any document parsing to s); Doc.invalid raw
is a document that fails to parse as the Settings schema. -/
inductive Doc where
  | valid (s : Settings)
  | invalid (raw : RStr)

/-- serde_json::to_string_pretty, in the up-to-parsing content model. -/
def prettySerialize (s : Settings) : Doc := Doc.valid s

/-- enum ConfigError. -/
inductive ConfigError where
  | io
  | json
deriving DecidableEq

/-- The filesystem: a map from paths to file contents. -/
abbrev FS := RStr → Option Doc

/-- const CONFIG_FILE_NAME = config.json. -/
def CONFIG_FILE_NAME : RStr := str "config.json"

/-- std::fs::write: overwrite one path with new contents. -/
def writeFile (fs : FS) (path : RStr) (d : Doc) : FS :=
  fun p => if p = path then some d else fs p

/-- Settings::load: read the file at path (missing file means io error),
parse it (unparseable contents mean json error, nothing written), then
lowercase, then default the chat commands, then write the result to the
canonical file name and return it. -/
def load (fs : FS) (path : RStr) : FS × Except ConfigError Settings :=
  match fs path with
  | none => (fs, Except.error ConfigError.io)
  | some (Doc.invalid _) => (fs, Except.error ConfigError.json)
  | some (Doc.valid parsed) =>
    let config := lowercase_settings parsed
    let config := default_settings_commands config
    (writeFile fs CONFIG_FILE_NAME (prettySerialize config), Except.ok config)

/-- Fuel-indexed worker for str::split on a non-empty separator: leftmost
non-overlapping matches, each match consuming the separator.  Fuel at least
the length of the input makes the fuel irrelevant. -/
def splitOnGo (sep : RStr) : Nat → RStr → List RStr
  | 0, s => [s]
  | fuel + 1, s =>
    match s with
    | [] => [[]]
    | c :: rest =>
      if sep ≠ [] ∧ (c :: rest).take sep.length = sep then
        [] :: splitOnGo sep fuel ((c :: rest).drop sep.length)
      else
        match splitOnGo sep fuel rest with
        | [] => [[c]]
        | seg :: segs => (c :: seg) :: segs

/-- Model of Rust str::split collected into a Vec (for a non-empty
separator, as used by ask_for_settings). -/
def splitOnList (sep s : RStr) : List RStr := splitOnGo sep s.length s

/-- The "?key=" marker of the wizard. -/
def MARKER : RStr := str "?key="

/-- remote_key.split("?key=").nth(1): the remote-key extraction of
ask_for_settings; none models the .expect panic. -/
def extract_remote_key (line : RStr) : Option RStr :=
  (splitOnList MARKER line)[1]?

/-- The substring following the first occurrence of sep, none when sep
does not occur.  Spec-side description used to characterize the split. -/
def substringAfterFirst (sep : RStr) : RStr → Option RStr
  | [] => none
  | c :: rest =>
    if sep ≠ [] ∧ (c :: rest).take sep.length = sep then
      some ((c :: rest).drop sep.length)
    else
      substringAfterFirst sep rest

/-- The part of s before the first occurrence of sep, all of s when sep
does not occur. -/
def substringBeforeFirst (sep : RStr) : RStr → RStr
  | [] => []
  | c :: rest =>
    if sep ≠ [] ∧ (c :: rest).take sep.length = sep then []
    else c :: substringBeforeFirst sep rest

/-- The three identity interface-name mappings inserted by the wizard. -/
def wizardInterfaceNames : SMap := fun n =>
  if n = str "eth0" then some (str "eth0")
  else if n = str "usb0" then some (str "usb0")
  else if n = str "wlan0" then some (str "wlan0")
  else none

/-- The record assembled by the wizard from the extracted key and the three
prompted twitch answers, before persisting and before normalization. -/
def wizardSettings (key username oauth chan : RStr) : Settings where
  belabox :=
    { remote_key := key
      custom_interface_name := wizardInterfaceNames
      monitor := monitorDefault }
  twitch :=
    { bot_username := username
      bot_oauth := oauth
      channel := chan
      admins := [] }
  commands := default_chat_commands emptyCommands

/-- Settings::ask_for_settings as a function of the four prompted input
lines: extract the remote key (a missing "?key=" marker panics, modelled as
none with the filesystem untouched), assemble the record with the fixed
interface names, default monitor, empty admins and the default command
catalogue, write it to the canonical file, and only then lowercase the
returned in-memory record. -/
def ask_for_settings (fs : FS) (url username oauth chan : RStr) :
    FS × Option Settings :=
  match extract_remote_key url with
  | none => (fs, none)
  | some key =>
    let settings := wizardSettings key username oauth chan
    (writeFile fs CONFIG_FILE_NAME (prettySerialize settings),
      some (lowercase_settings settings))

/-- Anatomy of a successful load: the file at path parsed, and the result
is the parsed record lowercased then defaulted, which is also what was
written to the canonical file. -/
theorem load_ok_shape (fs : FS) (path : RStr) (fs' : FS) (s : Settings)
    (h : load fs path = (fs', Except.ok s)) :
    ∃ parsed, fs path = some (Doc.valid parsed)
      ∧ s = default_settings_commands (lowercase_settings parsed)
      ∧ fs' = writeFile fs CONFIG_FILE_NAME (prettySerialize s) := by
  unfold load at h
  split at h
  · simp at h
  · simp at h
  · rename_i parsed heq
    rw [Prod.mk.injEq] at h
    obtain ⟨hfs, hok⟩ := h
    rw [Except.ok.injEq] at hok
    exact ⟨parsed, heq, hok.symm, by rw [← hfs, hok]⟩

/-- Anatomy of a successful bootstrap: a key was extracted, the assembled
(not yet normalized) record was written, and the normalized record was
returned. -/
theorem ask_ok_shape (fs : FS) (url username oauth chan : RStr) (fs' : FS)
    (s : Settings)
    (h : ask_for_settings fs url username oauth chan = (fs', some s)) :
    ∃ key, extract_remote_key url = some key
      ∧ s = lowercase_settings (wizardSettings key username oauth chan)
      ∧ fs' = writeFile fs CONFIG_FILE_NAME
          (prettySerialize (wizardSettings key username oauth chan)) := by
  unfold ask_for_settings at h
  split at h
  · simp at h
  · rename_i key heq
    rw [Prod.mk.injEq] at h
    obtain ⟨hfs, hsome⟩ := h
    rw [Option.some.injEq] at hsome
    exact ⟨key, heq, hsome.symm, hfs.symm⟩

/-- All invariants of §3 on a Settings record: one entry per command kind,
and every case-sensitive field lowercase. -/
def SettingsWellFormed (s : Settings) : Prop :=
  (∀ k, (s.commands k).isSome = true)
  ∧ IsLowerStr s.twitch.channel
  ∧ IsLowerStr s.twitch.bot_username
  ∧ IsLowerStr s.twitch.bot_oauth
  ∧ (∀ a ∈ s.twitch.admins, IsLowerStr a)
  ∧ (∀ k info, s.commands k = some info → IsLowerStr info.command)

theorem wellformed_default_lowercase (parsed : Settings) :
    SettingsWellFormed (default_settings_commands (lowercase_settings parsed)) := by
  refine ⟨?_, toLowercase_isLower _, toLowercase_isLower _, toLowercase_isLower _, ?_, ?_⟩
  · intro k
    rw [show (default_settings_commands (lowercase_settings parsed)).commands
          = default_chat_commands (lowercase_settings parsed).commands from rfl,
        default_chat_commands_eq]
    rfl
  · intro a ha
    show IsLowerStr a
    rw [show (default_settings_commands (lowercase_settings parsed)).twitch.admins
          = parsed.twitch.admins.map toLowercase from rfl] at ha
    obtain ⟨b, _, hb⟩ := List.mem_map.mp ha
    rw [← hb]
    exact toLowercase_isLower b
  · intro k info hinfo
    rw [show (default_settings_commands (lowercase_settings parsed)).commands
          = default_chat_commands (lowercase_settings parsed).commands from rfl,
        default_chat_commands_eq] at hinfo
    rw [Option.some.injEq] at hinfo
    rw [← hinfo]
    show IsLowerStr (((parsed.commands k).map lowInfo).getD (defaultCommand k)).command
    cases h : parsed.commands k
    · exact defaultCommand_lower k
    · exact toLowercase_isLower _

theorem wellformed_lowercase_wizard (key username oauth chan : RStr) :
    SettingsWellFormed (lowercase_settings (wizardSettings key username oauth chan)) := by
  refine ⟨?_, toLowercase_isLower _, toLowercase_isLower _, toLowercase_isLower _, ?_, ?_⟩
  · intro k
    show ((default_chat_commands emptyCommands k).map lowInfo).isSome = true
    rw [default_chat_commands_eq]
    rfl
  · intro a ha
    exact absurd ha (List.not_mem_nil a)
  · intro k info hinfo
    have h2 : (default_chat_commands emptyCommands k).map lowInfo = some info := hinfo
    rw [default_chat_commands_eq] at h2
    have h3 : some (lowInfo ((emptyCommands k).getD (defaultCommand k))) = some info := h2
    rw [Option.some.injEq] at h3
    rw [← h3]
    exact toLowercase_isLower _

/-- C1: every Settings record produced by a successful load or bootstrap
has exactly one commands entry per BotCommand kind, and channel,
bot_username, bot_oauth, every admins entry and every command trigger are
lowercase. -/
theorem settings_wellformed_after_load_and_bootstrap :
    (∀ fs path fs' s, load fs path = (fs', Except.ok s) → SettingsWellFormed s)
    ∧ (∀ fs url username oauth chan fs' s,
        ask_for_settings fs url username oauth chan = (fs', some s) →
          SettingsWellFormed s) := by
  constructor
  · intro fs path fs' s h
    obtain ⟨parsed, _, hs, _⟩ := load_ok_shape fs path fs' s h
    rw [hs]
    exact wellformed_default_lowercase parsed
  · intro fs url username oauth chan fs' s h
    obtain ⟨key, _, hs, _⟩ := ask_ok_shape fs url username oauth chan fs' s h
    rw [hs]
    exact wellformed_lowercase_wizard key username oauth chan

/-- A parsed record exercising mixed case, a custom command and admins. -/
def sampleParsed : Settings where
  belabox :=
    { remote_key := str "KeyABC"
      custom_interface_name := fun _ => none
      monitor := ⟨true, false⟩ }
  twitch :=
    { bot_username := str "BotUser"
      bot_oauth := str "oauth:ABC"
      channel := str "MyChannel"
      admins := [str "Foo", str "BAR"] }
  commands := fun k =>
    if k = BotCommand.Start then some ⟨str "!Custom", Permission.Moderator⟩
    else none

/-- A filesystem holding sampleParsed at a non-canonical path. -/
def sampleFS : FS := fun p =>
  if p = str "other.json" then some (Doc.valid sampleParsed) else none

/-- What load returns on sampleFS. -/
def sampleLoaded : Settings :=
  default_settings_commands (lowercase_settings sampleParsed)

/-- The filesystem after that load. -/
def sampleFS2 : FS :=
  writeFile sampleFS CONFIG_FILE_NAME (prettySerialize sampleLoaded)

theorem settings_wellformed_witness : SettingsWellFormed sampleLoaded :=
  settings_wellformed_after_load_and_bootstrap.1 sampleFS (str "other.json")
    sampleFS2 sampleLoaded rfl

theorem default_settings_commands_idem_aux (s : Settings) :
    default_settings_commands (default_settings_commands s)
      = default_settings_commands s := by
  unfold default_settings_commands
  rw [Settings.mk.injEq]
  exact ⟨rfl, rfl, default_chat_commands_idem_aux s.commands⟩

theorem lowercase_fixed_on_load_result (p : Settings) :
    lowercase_settings (default_settings_commands (lowercase_settings p))
      = default_settings_commands (lowercase_settings p) := by
  rw [lowercase_default_comm_aux]
  exact lowercase_settings_idem_aux _

theorem wizard_defaulted (key username oauth chan : RStr) :
    default_settings_commands (wizardSettings key username oauth chan)
      = wizardSettings key username oauth chan := by
  unfold default_settings_commands wizardSettings
  rw [Settings.mk.injEq]
  exact ⟨rfl, rfl, default_chat_commands_idem_aux emptyCommands⟩

/-- C2 amended: after a successful load the canonical file holds the
pretty-serialization of the fully normalized, fully defaulted returned
record, whatever path was loaded; after a successful bootstrap the
canonical file holds the pretty-serialization of the fully defaulted but
not yet normalized assembled record, and the returned record is its
normalization. -/
theorem canonical_file_reflects_record_amended :
    (∀ fs path fs' s, load fs path = (fs', Except.ok s) →
        fs' CONFIG_FILE_NAME = some (prettySerialize s)
        ∧ lowercase_settings s = s
        ∧ default_settings_commands s = s)
    ∧ (∀ fs url username oauth chan fs' s,
        ask_for_settings fs url username oauth chan = (fs', some s) →
          ∃ w, fs' CONFIG_FILE_NAME = some (prettySerialize w)
            ∧ default_settings_commands w = w
            ∧ s = lowercase_settings w) := by
  constructor
  · intro fs path fs' s h
    obtain ⟨parsed, _, hs, hfs⟩ := load_ok_shape fs path fs' s h
    refine ⟨?_, ?_, ?_⟩
    · rw [hfs]
      exact if_pos rfl
    · rw [hs]
      exact lowercase_fixed_on_load_result parsed
    · rw [hs]
      exact default_settings_commands_idem_aux _
  · intro fs url username oauth chan fs' s h
    obtain ⟨key, _, hs, hfs⟩ := ask_ok_shape fs url username oauth chan fs' s h
    refine ⟨wizardSettings key username oauth chan, ?_,
      wizard_defaulted key username oauth chan, hs⟩
    rw [hfs]
    exact if_pos rfl

theorem canonical_file_reflects_record_witness :
    sampleFS2 CONFIG_FILE_NAME = some (prettySerialize sampleLoaded)
    ∧ lowercase_settings sampleLoaded = sampleLoaded
    ∧ default_settings_commands sampleLoaded = sampleLoaded :=
  canonical_file_reflects_record_amended.1 sampleFS (str "other.json")
    sampleFS2 sampleLoaded rfl

/-- A well-formed wizard URL input whose key is abc123. -/
def goodUrl : RStr := str "https://remote.belabox.net/ws/remote?key=abc123"

/-- The record the wizard assembles (and persists) for the concrete inputs
of the counterexample run, before normalization. -/
def bootWritten : Settings :=
  wizardSettings (str "abc123") (str "MyBot") (str "oauth:XYZ") (str "MyChannel")

/-- The concrete counterexample bootstrap run. -/
def bootRun : FS × Option Settings :=
  ask_for_settings (fun _ => none) goodUrl (str "MyBot") (str "oauth:XYZ")
    (str "MyChannel")

/-- C2 counterexample: on a successful bootstrap with channel MyChannel the
canonical file holds the pre-normalization record, which is not lowercase,
and differs from the pretty-serialization of the normalized record the
caller receives; so the file does not reflect the fully normalized record. -/
theorem bootstrap_writes_unnormalized_counterexample :
    bootRun.2 = some (lowercase_settings bootWritten)
    ∧ bootRun.1 CONFIG_FILE_NAME = some (prettySerialize bootWritten)
    ∧ lowercase_settings bootWritten ≠ bootWritten
    ∧ bootRun.1 CONFIG_FILE_NAME
        ≠ some (prettySerialize (lowercase_settings bootWritten)) := by
  have hfile : bootRun.1 CONFIG_FILE_NAME = some (prettySerialize bootWritten) := rfl
  refine ⟨rfl, hfile, ?_, ?_⟩
  · intro h
    have h4 : toLowercase (str "MyChannel") = str "MyChannel" :=
      congrArg (fun st => st.twitch.channel) h
    exact absurd h4 (by decide)
  · intro h
    rw [hfile] at h
    rw [Option.some.injEq] at h
    have h3 : bootWritten = lowercase_settings bootWritten := Doc.valid.inj h
    have h4 : str "MyChannel" = toLowercase (str "MyChannel") :=
      congrArg (fun st => st.twitch.channel) h3
    exact absurd h4.symm (by decide)

/-- C3: writing any Settings value to the canonical file and loading that
file back succeeds and returns Normalizer(CommandDefaulter(s)). -/
theorem write_then_load_roundtrip (fs : FS) (s : Settings) :
    (load (writeFile fs CONFIG_FILE_NAME (prettySerialize s)) CONFIG_FILE_NAME).2
      = Except.ok (lowercase_settings (default_settings_commands s)) := by
  have hfile : writeFile fs CONFIG_FILE_NAME (prettySerialize s) CONFIG_FILE_NAME
      = some (Doc.valid s) := if_pos rfl
  unfold load
  rw [hfile]
  exact congrArg Except.ok (lowercase_default_comm_aux s)

/-- C4: the defaulter never overwrites an existing commands entry: both the
trigger and the permission of a present key are returned unchanged. -/
theorem default_chat_commands_preserves_existing (m : CommandMap)
    (k : BotCommand) (info : CommandInformation) (h : m k = some info) :
    default_chat_commands m k = some info := by
  rw [default_chat_commands_eq, h]
  rfl

/-- A commands map customizing only the Start trigger. -/
def customStartMap : CommandMap := fun k =>
  if k = BotCommand.Start then some ⟨str "!custom", Permission.Moderator⟩
  else none

theorem default_chat_commands_preserves_existing_witness :
    default_chat_commands customStartMap BotCommand.Start
      = some ⟨str "!custom", Permission.Moderator⟩ :=
  default_chat_commands_preserves_existing customStartMap BotCommand.Start
    ⟨str "!custom", Permission.Moderator⟩ (by decide)

/-- C5: for every map the defaulted map has an entry for all 8 command
kinds, and on the empty map the result is exactly the literal catalogue. -/
theorem default_chat_commands_complete_catalogue :
    (∀ m k, (default_chat_commands m k).isSome = true)
    ∧ default_chat_commands emptyCommands BotCommand.Start
        = some ⟨str "!bbstart", Permission.Broadcaster⟩
    ∧ default_chat_commands emptyCommands BotCommand.Stop
        = some ⟨str "!bbstop", Permission.Broadcaster⟩
    ∧ default_chat_commands emptyCommands BotCommand.Stats
        = some ⟨str "!bbs", Permission.Public⟩
    ∧ default_chat_commands emptyCommands BotCommand.Restart
        = some ⟨str "!bbrs", Permission.Broadcaster⟩
    ∧ default_chat_commands emptyCommands BotCommand.Poweroff
        = some ⟨str "!bbpo", Permission.Broadcaster⟩
    ∧ default_chat_commands emptyCommands BotCommand.Bitrate
        = some ⟨str "!bbb", Permission.Broadcaster⟩
    ∧ default_chat_commands emptyCommands BotCommand.Sensor
        = some ⟨str "!bbsensor", Permission.Public⟩
    ∧ default_chat_commands emptyCommands BotCommand.Network
        = some ⟨str "!bbt", Permission.Broadcaster⟩ := by
  refine ⟨?_, ?_, ?_, ?_, ?_, ?_, ?_, ?_, ?_⟩
  · intro m k
    rw [default_chat_commands_eq]
    rfl
  all_goals decide

/-- C6: the Normalizer is idempotent on Settings records, and the
CommandDefaulter is idempotent on commands maps. -/
theorem normalizer_defaulter_idempotent :
    (∀ s, lowercase_settings (lowercase_settings s) = lowercase_settings s)
    ∧ (∀ m, default_chat_commands (default_chat_commands m)
        = default_chat_commands m) :=
  ⟨lowercase_settings_idem_aux, default_chat_commands_idem_aux⟩

/-- C7: load on a missing path returns the io error and leaves the whole
filesystem unchanged (no file created); load on an unparseable document
returns the json error and leaves the filesystem, in particular any
pre-existing canonical file, unchanged. -/
theorem load_failure_isolation :
    (∀ fs path, fs path = none →
        load fs path = (fs, Except.error ConfigError.io))
    ∧ (∀ fs path raw, fs path = some (Doc.invalid raw) →
        load fs path = (fs, Except.error ConfigError.json)) := by
  constructor
  · intro fs path h
    unfold load
    rw [h]
  · intro fs path raw h
    unfold load
    rw [h]

/-- The empty filesystem. -/
def emptyFS : FS := fun _ => none

/-- A filesystem whose canonical file is unparseable. -/
def badFS : FS := fun p =>
  if p = CONFIG_FILE_NAME then some (Doc.invalid (str "not json")) else none

theorem load_failure_isolation_witness :
    load emptyFS CONFIG_FILE_NAME = (emptyFS, Except.error ConfigError.io)
    ∧ load badFS CONFIG_FILE_NAME = (badFS, Except.error ConfigError.json) :=
  ⟨load_failure_isolation.1 emptyFS CONFIG_FILE_NAME rfl,
   load_failure_isolation.2 badFS CONFIG_FILE_NAME (str "not json") rfl⟩

/-- C9: the Normalizer only lowercases: belabox is unchanged, the key set
of commands is unchanged, every entry's permission is unchanged, and the
admins sequence keeps its length and order, each entry merely lowercased. -/
theorem lowercase_settings_frame (s : Settings) :
    (lowercase_settings s).belabox = s.belabox
    ∧ (∀ k, ((lowercase_settings s).commands k).isSome = (s.commands k).isSome)
    ∧ (∀ k, ((lowercase_settings s).commands k).map CommandInformation.permission
        = (s.commands k).map CommandInformation.permission)
    ∧ (lowercase_settings s).twitch.admins.length = s.twitch.admins.length
    ∧ (lowercase_settings s).twitch.admins = s.twitch.admins.map toLowercase := by
  refine ⟨rfl, ?_, ?_, ?_, rfl⟩
  · intro k
    show ((s.commands k).map lowInfo).isSome = (s.commands k).isSome
    cases s.commands k <;> rfl
  · intro k
    show ((s.commands k).map lowInfo).map CommandInformation.permission
        = (s.commands k).map CommandInformation.permission
    cases s.commands k <;> rfl
  · show (s.twitch.admins.map toLowercase).length = s.twitch.admins.length
    exact List.length_map s.twitch.admins toLowercase

/-- C10: Normalizer and CommandDefaulter commute: defaulting the commands
of a normalized record equals normalizing the record with its commands
already defaulted, because every default trigger is already lowercase. -/
theorem normalizer_defaulter_commute (s : Settings) :
    default_settings_commands (lowercase_settings s)
      = lowercase_settings (default_settings_commands s) :=
  lowercase_default_comm_aux s

theorem splitOnGo_fuel_irrel (sep : RStr) :
    ∀ f1 f2 s, s.length ≤ f1 → s.length ≤ f2 →
      splitOnGo sep f1 s = splitOnGo sep f2 s := by
  intro f1
  induction f1 with
  | zero =>
    intro f2 s h1 _
    have hs : s = [] := List.length_eq_zero.mp (Nat.le_zero.mp h1)
    subst hs
    cases f2 <;> rfl
  | succ f ih =>
    intro f2 s h1 h2
    cases s with
    | nil => cases f2 <;> rfl
    | cons c rest =>
      cases f2 with
      | zero => simp at h2
      | succ g =>
        simp only [splitOnGo]
        have hlen : rest.length + 1 ≤ f + 1 := h1
        have hlen2 : rest.length + 1 ≤ g + 1 := h2
        by_cases hc : sep ≠ [] ∧ (c :: rest).take sep.length = sep
        · rw [if_pos hc, if_pos hc]
          have hsep : 0 < sep.length := List.length_pos.mpr hc.1
          have hd : ((c :: rest).drop sep.length).length ≤ f := by
            rw [List.length_drop]
            simp only [List.length_cons]
            omega
          have hd2 : ((c :: rest).drop sep.length).length ≤ g := by
            rw [List.length_drop]
            simp only [List.length_cons]
            omega
          rw [ih g ((c :: rest).drop sep.length) hd hd2]
        · rw [if_neg hc, if_neg hc]
          rw [ih g rest (by omega) (by omega)]

theorem splitOnGo_after_none (sep : RStr) :
    ∀ fuel s, s.length ≤ fuel → substringAfterFirst sep s = none →
      splitOnGo sep fuel s = [s] := by
  intro fuel
  induction fuel with
  | zero =>
    intro s h _
    have hs : s = [] := List.length_eq_zero.mp (Nat.le_zero.mp h)
    subst hs
    rfl
  | succ f ih =>
    intro s h hafter
    cases s with
    | nil => rfl
    | cons c rest =>
      unfold substringAfterFirst at hafter
      simp only [splitOnGo]
      by_cases hc : sep ≠ [] ∧ (c :: rest).take sep.length = sep
      · rw [if_pos hc] at hafter
        exact absurd hafter (by simp)
      · rw [if_neg hc] at hafter
        rw [if_neg hc]
        rw [ih rest (by simp only [List.length_cons] at h; omega) hafter]

theorem splitOnGo_after_some (sep : RStr) (hsep : sep ≠ []) :
    ∀ fuel s rest, s.length ≤ fuel → substringAfterFirst sep s = some rest →
      splitOnGo sep fuel s
        = substringBeforeFirst sep s :: splitOnList sep rest := by
  intro fuel
  induction fuel with
  | zero =>
    intro s rest h hafter
    have hs : s = [] := List.length_eq_zero.mp (Nat.le_zero.mp h)
    subst hs
    exact absurd hafter (by simp [substringAfterFirst])
  | succ f ih =>
    intro s rest h hafter
    cases s with
    | nil => exact absurd hafter (by simp [substringAfterFirst])
    | cons c tail =>
      unfold substringAfterFirst at hafter
      simp only [splitOnGo]
      unfold substringBeforeFirst
      by_cases hc : sep ≠ [] ∧ (c :: tail).take sep.length = sep
      · rw [if_pos hc] at hafter
        rw [Option.some.injEq] at hafter
        rw [if_pos hc, if_pos hc]
        subst hafter
        have hpos : 0 < sep.length := List.length_pos.mpr hsep
        have hd : ((c :: tail).drop sep.length).length ≤ f := by
          rw [List.length_drop]
          simp only [List.length_cons]
          have : tail.length + 1 ≤ f + 1 := h
          omega
        unfold splitOnList
        rw [splitOnGo_fuel_irrel sep f ((c :: tail).drop sep.length).length
          ((c :: tail).drop sep.length) hd le_rfl]
      · rw [if_neg hc] at hafter
        rw [if_neg hc, if_neg hc]
        rw [ih tail rest (by simp only [List.length_cons] at h; omega) hafter]

theorem substringBeforeFirst_of_after_none (sep : RStr) :
    ∀ t, substringAfterFirst sep t = none → substringBeforeFirst sep t = t := by
  intro t
  induction t with
  | nil => intro _; rfl
  | cons c rest ih =>
    intro h
    unfold substringAfterFirst at h
    unfold substringBeforeFirst
    by_cases hc : sep ≠ [] ∧ (c :: rest).take sep.length = sep
    · rw [if_pos hc] at h
      exact absurd h (by simp)
    · rw [if_neg hc] at h
      rw [if_neg hc, ih h]

theorem splitOnList_head (sep : RStr) (hsep : sep ≠ []) (t : RStr) :
    (splitOnList sep t)[0]? = some (substringBeforeFirst sep t) := by
  cases hafter : substringAfterFirst sep t with
  | none =>
    unfold splitOnList
    rw [splitOnGo_after_none sep t.length t le_rfl hafter,
      substringBeforeFirst_of_after_none sep t hafter]
    rfl
  | some rest =>
    unfold splitOnList
    rw [splitOnGo_after_some sep hsep t.length t rest le_rfl hafter]
    exact List.getElem?_cons_zero

/-- The split-based extraction, characterized by the two scans: nth(1) of
the split is the substring after the first marker, truncated before the
next marker occurrence. -/
theorem extract_remote_key_eq (line : RStr) :
    extract_remote_key line
      = (substringAfterFirst MARKER line).map (substringBeforeFirst MARKER) := by
  have hsep : MARKER ≠ [] := by decide
  cases hafter : substringAfterFirst MARKER line with
  | none =>
    unfold extract_remote_key splitOnList
    rw [splitOnGo_after_none MARKER line.length line le_rfl hafter]
    rfl
  | some rest =>
    unfold extract_remote_key splitOnList
    rw [splitOnGo_after_some MARKER hsep line.length line rest le_rfl hafter,
      List.getElem?_cons_succ]
    exact splitOnList_head MARKER hsep rest

/-- A pasted URL in which the "?key=" marker occurs twice. -/
def doubleKeyUrl : RStr := str "https://x?key=abc?key=def"

/-- C8 counterexample: on a line with two "?key=" markers the extracted
remote key is the segment between the two markers (nth(1) of the split),
not the substring following the first occurrence. -/
theorem remote_key_not_suffix_counterexample :
    substringAfterFirst MARKER doubleKeyUrl = some (str "abc?key=def")
    ∧ extract_remote_key doubleKeyUrl = some (str "abc")
    ∧ extract_remote_key doubleKeyUrl ≠ some (str "abc?key=def") :=
  ⟨by decide, by decide, by decide⟩

/-- C8 amended: on every successful bootstrap the remote key is the
substring following the first "?key=" marker truncated before the next
marker occurrence (so the full following substring exactly when the marker
occurs once); on an input line without the marker the bootstrap aborts
fatally with nothing written and no Settings value, rather than returning
a ConfigError. -/
theorem remote_key_extraction_amended :
    (∀ fs url username oauth chan fs' s,
        ask_for_settings fs url username oauth chan = (fs', some s) →
          ∃ rest, substringAfterFirst MARKER url = some rest
            ∧ s.belabox.remote_key = substringBeforeFirst MARKER rest)
    ∧ (∀ line rest, substringAfterFirst MARKER line = some rest →
        substringAfterFirst MARKER rest = none →
          extract_remote_key line = some rest)
    ∧ (∀ fs url username oauth chan,
        substringAfterFirst MARKER url = none →
          ask_for_settings fs url username oauth chan = (fs, none)) := by
  refine ⟨?_, ?_, ?_⟩
  · intro fs url username oauth chan fs' s h
    obtain ⟨key, hkey, hs, _⟩ := ask_ok_shape fs url username oauth chan fs' s h
    rw [extract_remote_key_eq] at hkey
    cases hafter : substringAfterFirst MARKER url with
    | none =>
      rw [hafter] at hkey
      exact absurd hkey (by simp)
    | some rest =>
      rw [hafter] at hkey
      have hkey2 : some (substringBeforeFirst MARKER rest) = some key := hkey
      refine ⟨rest, rfl, ?_⟩
      rw [hs]
      exact (Option.some.inj hkey2).symm
  · intro line rest h1 h2
    rw [extract_remote_key_eq, h1]
    show some (substringBeforeFirst MARKER rest) = some rest
    rw [substringBeforeFirst_of_after_none MARKER rest h2]
  · intro fs url username oauth chan h
    have hnone : extract_remote_key url = none := by
      rw [extract_remote_key_eq, h]
      rfl
    unfold ask_for_settings
    rw [hnone]

theorem remote_key_extraction_witness :
    ask_for_settings emptyFS (str "url without marker") (str "a") (str "b")
      (str "c") = (emptyFS, none) :=
  remote_key_extraction_amended.2.2 emptyFS (str "url without marker")
    (str "a") (str "b") (str "c") (by decide)

end Belabot
